import Mathlib

-- Verification of the rules_gitops manifest image resolver, release-train
-- branch logic, push coordinator, hosting-API publication and run cleanup,
-- against a shallow embedding of the Go sources (resolver package,
-- gitops/prer/create_gitops_prs.go, gitops/git/github_app/github_app.go).

-- ===========================================================================
-- Part 1: the manifest document model.
--
-- The resolver operates on decoded YAML/JSON documents held as Go
-- `map[string]interface{}` / `[]interface{}` / scalar trees. The embedding
-- is a tagged tree; a Go map is held as an association list with unique
-- keys. Go's map iteration order is unspecified; the embedding fixes the
-- entry order of each mapping, and every concrete input used below is
-- insensitive to that order.

inductive YVal where
  | str (s : String)
  | num (n : Int)
  | boolV (b : Bool)
  | nullV
  | map (entries : List (String × YVal))
  | seq (items : List YVal)
deriving Repr

abbrev Obj := List (String × YVal)

-- The image map (imgmap) of ResolveImages: map[string]string, keys unique.
abbrev ImageMap := List (String × String)

-- Outcome of a transformer call: `ok`/`err` mirror the Go `error` return
-- (`err` carries the object as mutated so far, since Go mutates in place and
-- the caller keeps the partial mutations), `crash` mirrors a Go runtime
-- panic from a failed unchecked type assertion, and `fuelOut` is an
-- artifact of the fuel-based embedding of the recursive traversal, never
-- reached when the traversal is run with the wrapper's fuel bound.
inductive TRes (α : Type) where
  | ok (val : α)
  | err (msg : String) (val : α)
  | crash (msg : String)
  | fuelOut
deriving Repr

-- Go map read m[k]: first (only) binding of the key.
def lookupKey : Obj → String → Option YVal
  | [], _ => none
  | (k, v) :: rest, key => if k = key then some v else lookupKey rest key

-- Go map write m[k] = v: replace the key's binding, adding it when absent.
def setKey : Obj → String → YVal → Obj
  | [], key, v => [(key, v)]
  | (k, w) :: rest, key, v => if k = key then (key, v) :: rest else (k, w) :: setKey rest key v

-- Go `_, found = obj[path]` comma-ok form.
def hasKey (o : Obj) (k : String) : Bool := (lookupKey o k).isSome

def lookupStr : ImageMap → String → Option String
  | [], _ => none
  | (k, v) :: rest, key => if k = key then some v else lookupStr rest key

-- Go map read returning the zero value "" for an absent key (pt.images[x]).
def lookupStrD (m : ImageMap) (key : String) : String := (lookupStr m key).getD ""

-- strings.HasPrefix.
def strStartsWith (s pre : String) : Bool := pre.toList.isPrefixOf s.toList

-- strings.Contains.
def strContainsSub (s pat : String) : Bool := s.toList.tails.any (fun t => pat.toList.isPrefixOf t)

-- strings.TrimPrefix with a one-character prefix already known present,
-- and the slice expression envValue[1:].
def strDrop1 (s : String) : String := ⟨s.toList.drop 1⟩

-- ===========================================================================
-- Part 2: the image resolver (resolver package).

-- resolveImageName (resolver.go lines 114-137): exact lookup, then a
-- ':'-stripped retry, then an '@'-stripped retry, else unresolved.
def resolveImageName (images : ImageMap) (imagename : String) : Option String :=
  match lookupStr images imagename with
  | some newname => some newname
  | none =>
    match (if strStartsWith imagename ":" then lookupStr images (strDrop1 imagename) else none) with
    | some newname => some newname
    | none =>
      match (if strStartsWith imagename "@" then lookupStr images (strDrop1 imagename) else none) with
      | some newname => some newname
      | none => none

-- The loop body of updateContainerEnv (resolver.go lines 146-169). Each Go
-- `return` inside the loop aborts the whole scan, leaving the remaining
-- entries untouched (mutations already made to earlier entries persist).
-- Note the env path does the lookups pt.images[...] directly: an absent key
-- yields the Go zero value "".
def updateContainerEnvLoop (images : ImageMap) : List YVal → List YVal
  | [] => []
  | kv :: rest =>
    match kv with
    | .map m =>
      match lookupKey m "name" with
      | some (.str envName) =>
        if strContainsSub envName "IMAGE_URL" then
          match lookupKey m "value" with
          | some (.str envValue) =>
            let m1 := if strStartsWith envValue "//" then setKey m "value" (.str (lookupStrD images envValue)) else m
            let m2 := if strStartsWith envValue ":" then setKey m1 "value" (.str (lookupStrD images (strDrop1 envValue))) else m1
            .map m2 :: updateContainerEnvLoop images rest
          | _ => kv :: rest
        else kv :: updateContainerEnvLoop images rest
      | _ => kv :: rest
    | _ => kv :: rest

-- updateContainerEnv (resolver.go lines 141-170): the checked assertion
-- container["env"].([]interface{}) returns early when env is absent or not
-- a sequence.
def updateContainerEnv (images : ImageMap) (container : Obj) : Obj :=
  match lookupKey container "env" with
  | some (.seq items) => setKey container "env" (.seq (updateContainerEnvLoop images items))
  | _ => container

-- The per-element body of the updateContainers loop (resolver.go lines
-- 174-191), applied to one container mapping: env scan, then image
-- resolution; a resolved name is written back, an unresolved name beginning
-- with the build-target prefix "//" is an error, anything else is skipped.
def updateOneContainer (images : ImageMap) (c0 : Obj) : TRes Obj :=
  let c := updateContainerEnv images c0
  match lookupKey c "image" with
  | none => .ok c
  | some (.str imagename) =>
    match resolveImageName images imagename with
    | some newname => .ok (setKey c "image" (.str newname))
    | none =>
      if strStartsWith imagename "//" then .err ("Unresolved image found: " ++ imagename) c
      else .ok c
  | some _ => .ok c

-- The updateContainers range loop (resolver.go lines 174-191): the
-- unchecked assertion containers[i].(map[string]interface{}) panics on a
-- non-mapping element; an error return aborts the loop, keeping the
-- in-place mutations already made to earlier elements.
def updateContainersLoop (images : ImageMap) : List YVal → TRes (List YVal)
  | [] => .ok []
  | item :: rest =>
    match item with
    | .map c =>
      match updateOneContainer images c with
      | .err msg c2 => .err msg (.map c2 :: rest)
      | .crash m => .crash m
      | .fuelOut => .fuelOut
      | .ok c2 =>
        match updateContainersLoop images rest with
        | .ok rest2 => .ok (.map c2 :: rest2)
        | .err msg rest2 => .err msg (.map c2 :: rest2)
        | .crash m => .crash m
        | .fuelOut => .fuelOut
    | _ => .crash "interface conversion: container element is not a map[string]interface \x7b\x7d"

-- updateContainers (resolver.go lines 172-193): the unchecked assertion
-- obj[path].([]interface{}) panics when the value is not a sequence (the
-- caller has checked only that the key is present).
def updateContainers (images : ImageMap) (obj : Obj) (path : String) : TRes Obj :=
  match lookupKey obj path with
  | some (.seq items) =>
    match updateContainersLoop images items with
    | .ok items2 => .ok (setKey obj path (.seq items2))
    | .err msg items2 => .err msg (setKey obj path (.seq items2))
    | .crash m => .crash m
    | .fuelOut => .fuelOut
  | _ => .crash "interface conversion: value is not a []interface \x7b\x7d"

-- updateContainer (resolver.go lines 195-211): the unchecked assertion
-- obj[path].(map[string]interface{}) panics when the value is not a
-- mapping. Unlike updateContainers, the "//" prefix check comes BEFORE the
-- resolveImageName lookup, so a build-target-prefixed image errors out even
-- when it is an exact key of the image map.
def updateContainer (images : ImageMap) (obj : Obj) (path : String) : TRes Obj :=
  match lookupKey obj path with
  | some (.map c0) =>
    let c := updateContainerEnv images c0
    match lookupKey c "image" with
    | some (.str imagename) =>
      if strStartsWith imagename "//" then
        .err ("unresolved image found: " ++ imagename) (setKey obj path (.map c))
      else
        match resolveImageName images imagename with
        | some newname => .ok (setKey obj path (.map (setKey c "image" (.str newname))))
        | none => .ok (setKey obj path (.map c))
    | some _ => .ok (setKey obj path (.map c))
    | none => .ok (setKey obj path (.map c))
  | _ => .crash "interface conversion: value is not a map[string]interface \x7b\x7d"

-- The two path loops of findAndReplaceTag (resolver.go lines 82-107),
-- transcribed with the single `found` variable reassigned by every
-- `_, found = obj[path]` check, exactly as the Go source reassigns it; the
-- Bool returned with the updated object is the variable's final value.
def findAndReplaceShapes (images : ImageMap) (obj : Obj) : TRes (Obj × Bool) :=
  let found := hasKey obj "container"
  match (if found then updateContainer images obj "container" else .ok obj) with
  | .crash m => .crash m
  | .fuelOut => .fuelOut
  | .err m o => .err m (o, found)
  | .ok o1 =>
  let found := hasKey o1 "spec"
  match (if found then updateContainer images o1 "spec" else .ok o1) with
  | .crash m => .crash m
  | .fuelOut => .fuelOut
  | .err m o => .err m (o, found)
  | .ok o2 =>
  let found := hasKey o2 "containers"
  match (if found then updateContainers images o2 "containers" else .ok o2) with
  | .crash m => .crash m
  | .fuelOut => .fuelOut
  | .err m o => .err m (o, found)
  | .ok o3 =>
  let found := hasKey o3 "initContainers"
  match (if found then updateContainers images o3 "initContainers" else .ok o3) with
  | .crash m => .crash m
  | .fuelOut => .fuelOut
  | .err m o => .err m (o, found)
  | .ok o4 => .ok (o4, found)

-- findAndReplaceTag / findContainers (resolver.go lines 81-112 and
-- 213-235), with a fuel parameter making the non-structural mutual
-- recursion (the recursion descends into the object as already mutated by
-- the shape handling) a structural one; the wrapper below supplies fuel
-- exceeding the recursion depth of any input, so `fuelOut` is unreachable.
-- findContainersF is the `range obj` loop of findContainers;
-- findContainersItemsF is its inner loop over the elements of a child
-- sequence (non-mapping elements are skipped). An error from a child
-- returns immediately, keeping the mutations made so far.
mutual
def findAndReplaceTagF (images : ImageMap) : Nat → Obj → TRes Obj
  | 0, _ => .fuelOut
  | fuel + 1, obj =>
    match findAndReplaceShapes images obj with
    | .crash m => .crash m
    | .fuelOut => .fuelOut
    | .err m o => .err m o.1
    | .ok (o4, found) => if found then .ok o4 else findContainersF images fuel o4
def findContainersF (images : ImageMap) : Nat → Obj → TRes Obj
  | 0, _ => .fuelOut
  | _ + 1, [] => .ok []
  | fuel + 1, (k, v) :: rest =>
    match v with
    | .map m =>
      match findAndReplaceTagF images fuel m with
      | .crash msg => .crash msg
      | .fuelOut => .fuelOut
      | .err msg m2 => .err msg ((k, .map m2) :: rest)
      | .ok m2 =>
        match findContainersF images fuel rest with
        | .crash msg => .crash msg
        | .fuelOut => .fuelOut
        | .err msg rest2 => .err msg ((k, .map m2) :: rest2)
        | .ok rest2 => .ok ((k, .map m2) :: rest2)
    | .seq items =>
      match findContainersItemsF images fuel items with
      | .crash msg => .crash msg
      | .fuelOut => .fuelOut
      | .err msg items2 => .err msg ((k, .seq items2) :: rest)
      | .ok items2 =>
        match findContainersF images fuel rest with
        | .crash msg => .crash msg
        | .fuelOut => .fuelOut
        | .err msg rest2 => .err msg ((k, .seq items2) :: rest2)
        | .ok rest2 => .ok ((k, .seq items2) :: rest2)
    | _ =>
      match findContainersF images fuel rest with
      | .crash msg => .crash msg
      | .fuelOut => .fuelOut
      | .err msg rest2 => .err msg ((k, v) :: rest2)
      | .ok rest2 => .ok ((k, v) :: rest2)
def findContainersItemsF (images : ImageMap) : Nat → List YVal → TRes (List YVal)
  | 0, _ => .fuelOut
  | _ + 1, [] => .ok []
  | fuel + 1, item :: rest =>
    match item with
    | .map m =>
      match findAndReplaceTagF images fuel m with
      | .crash msg => .crash msg
      | .fuelOut => .fuelOut
      | .err msg m2 => .err msg (.map m2 :: rest)
      | .ok m2 =>
        match findContainersItemsF images fuel rest with
        | .crash msg => .crash msg
        | .fuelOut => .fuelOut
        | .err msg rest2 => .err msg (.map m2 :: rest2)
        | .ok rest2 => .ok (.map m2 :: rest2)
    | _ =>
      match findContainersItemsF images fuel rest with
      | .crash msg => .crash msg
      | .fuelOut => .fuelOut
      | .err msg rest2 => .err msg (item :: rest2)
      | .ok rest2 => .ok (item :: rest2)
end

-- Structural size of a document tree, independent of scalar contents
-- (the shape handling only replaces strings by strings, so the size of the
-- object is invariant along the traversal; 2 * size + 2 fuel therefore
-- dominates the recursion depth).
mutual
def ysize : YVal → Nat
  | .str _ => 1
  | .num _ => 1
  | .boolV _ => 1
  | .nullV => 1
  | .map l => 1 + esize l
  | .seq l => 1 + lsize l
def esize : List (String × YVal) → Nat
  | [] => 0
  | (_, v) :: rest => ysize v + esize rest
def lsize : List YVal → Nat
  | [] => 0
  | v :: rest => ysize v + lsize rest
end

-- findAndReplaceTag as called on one decoded document.
def findAndReplaceTag (images : ImageMap) (obj : Obj) : TRes Obj :=
  findAndReplaceTagF images (2 * esize obj + 2) obj

-- ===========================================================================
-- Part 3: the ResolveImages stream loop (resolver.go lines 26-70).
--
-- The YAML/JSON decoder is abstracted as the list of results it yields
-- before io.EOF: a decoded document or a decode error. Serialization is
-- abstracted: the output stream is modeled as the list of documents
-- marshaled and written, in order (yamlenc.Marshal is total on these trees
-- and out.Write errors are not modeled).

-- Errors ResolveImages returns, as structured values.
inductive RErr where
  | missingName (obj : Obj)
  | missingKind (obj : Obj)
  | decodeFail (msg : String)
deriving Repr

-- Result of a ResolveImages call: the emitted documents and the returned
-- error, or a runtime panic (documents already written stay written).
inductive RIResult where
  | finished (emitted : List Obj) (error : Option RErr)
  | crashed (msg : String) (emitted : List Obj)
deriving Repr

def prependDoc (o : Obj) : RIResult → RIResult
  | .finished l e => .finished (o :: l) e
  | .crashed m l => .crashed m (o :: l)

-- isEmptyYamlError (resolver.go lines 68-70).
def isEmptyYamlError (m : String) : Bool := strContainsSub m "is missing in 'null'"

-- unstructured.Unstructured.GetName(): metadata.name as a string, "" when
-- absent or not a string.
def getName (o : Obj) : String :=
  match lookupKey o "metadata" with
  | some (.map m) =>
    match lookupKey m "name" with
    | some (.str s) => s
    | _ => ""
  | _ => ""

-- unstructured.Unstructured.GetKind(): kind as a string, "" otherwise.
def getKind (o : Obj) : String :=
  match lookupKey o "kind" with
  | some (.str s) => s
  | _ => ""

-- ResolveImages (resolver.go lines 26-66). A decode error satisfying
-- isEmptyYamlError keeps the loop going; any other decode error is
-- returned (io.EOF, the end of the event list, returns nil). A decoded
-- document with empty name or kind is an immediate error return. The
-- return value of findAndReplaceTag is DISCARDED at the call site
-- (line 43 reads `pt.findAndReplaceTag(obj.Object)` with no assignment),
-- so a per-document resolution error does not stop the loop and the
-- document is marshaled and written with whatever mutations were made.
def ResolveImages (images : ImageMap) : List (Except String Obj) → RIResult
  | [] => .finished [] none
  | Except.error m :: rest =>
    if isEmptyYamlError m then ResolveImages images rest
    else .finished [] (some (.decodeFail m))
  | Except.ok obj :: rest =>
    if getName obj = "" then .finished [] (some (.missingName obj))
    else if getKind obj = "" then .finished [] (some (.missingKind obj))
    else
      match findAndReplaceTag images obj with
      | .crash m => .crashed m []
      | .fuelOut => .crashed "out of fuel" []
      | .ok o2 => prependDoc o2 (ResolveImages images rest)
      | .err _ o2 => prependDoc o2 (ResolveImages images rest)

-- ===========================================================================
-- Part 4: deployment-branch selection (create_gitops_prs.go lines 314-331).
--
-- The decision whether an existing deployment branch is force-discarded and
-- recreated: SwitchToBranch's result (true when the branch did not exist
-- and was freshly created from the target branch) and the target list
-- extracted from the last commit message (commitmsg.ExtractTargets) enter
-- as inputs; the loop recreates the branch as soon as one extracted target
-- is missing from the train's current target set (a map[string]bool built
-- from the train's targets).
def branchRecreated (switchCreatedNew : Bool) (prevTargets curTargets : List String) : Bool :=
  !switchCreatedNew && prevTargets.any (fun t => !(curTargets.any (fun x => x = t)))

-- ===========================================================================
-- Part 5: merge-request creation (github_app.go).

-- Result of a call that either returns to its caller or terminates the
-- process through log.Fatalf (which calls os.Exit).
inductive AppCallResult where
  | success
  | fatalExit (msg : String)
deriving Repr

-- The response handling of the standalone CreatePR entry point
-- (github_app.go lines 76-97), given the outcome of the
-- gh.PullRequests.Create call: none stands for a created PR (err == nil),
-- some (status, msg) for an error response with its HTTP status.
-- 422 is http.StatusUnprocessableEntity.
def CreatePR (response : Option (Nat × String)) : Option String :=
  match response with
  | none => none
  | some (status, msg) => if status = 422 then none else some msg

-- The merge-request step ending the app-credential commit path
-- (createPR, github_app.go lines 173-188): every error from the create
-- call, the already-exists conflict included, goes to log.Fatalf.
def createPR (response : Option (Nat × String)) : AppCallResult :=
  match response with
  | none => .success
  | some (_, msg) => .fatalExit ("failed to create PR: " ++ msg)

-- ===========================================================================
-- Part 6: temporary-directory cleanup in main (create_gitops_prs.go lines
-- 296-391).
--
-- Go semantics used by the model: a deferred call (the
-- `defer os.RemoveAll(gitopsDir)` at line 301) runs when the surrounding
-- function returns; log.Fatalf is Printf followed by os.Exit(1), and
-- os.Exit terminates the program immediately WITHOUT running deferred
-- functions.

inductive GoExit where
  | normalReturn
  | osExit
deriving Repr, DecidableEq

def deferredCleanupRuns : GoExit → Bool
  | .normalReturn => true
  | .osExit => false

-- The outcomes of the run's stages after the temporary directory exists:
-- git.Clone (line 304), the per-train target executions via exec.Mustex
-- (line 336), GetModifiedFiles (line 342), whether any train committed
-- changes (line 350/357), the push phase (lines 362-366), dry-run, and the
-- publish phase (lines 382-389: Push + CreatePR, or CreateCommit).
structure RunEnv where
  cloneOk : Bool
  targetsOk : Bool
  diffOk : Bool
  hasChanges : Bool
  pushOk : Bool
  dryRun : Bool
  publishOk : Bool

-- How main leaves once the temporary directory has been created: every
-- stage failure exits through log.Fatalf (os.Exit); the no-changes early
-- return, the dry-run path and full success return normally.
def mainExit (e : RunEnv) : GoExit :=
  if !e.cloneOk then .osExit
  else if !e.targetsOk then .osExit
  else if !e.diffOk then .osExit
  else if !e.hasChanges then .normalReturn
  else if !e.pushOk then .osExit
  else if e.dryRun then .normalReturn
  else if !e.publishOk then .osExit
  else .normalReturn

def tempDirRemoved (e : RunEnv) : Bool := deferredCleanupRuns (mainExit e)

-- ===========================================================================
-- Part 7: the push coordinator (processResolvedImages,
-- create_gitops_prs.go lines 156-175).
--
-- N worker goroutines range over one unbuffered channel; the main goroutine
-- sends every queued command in order, closes the channel, then blocks in
-- wg.Wait. The embedding is a small-step transition system: a send
-- rendezvouses with an idle worker (possible only while fewer than N
-- commands are in flight), a worker finishes its in-flight command at any
-- time, the channel closes once everything is sent, and wg.Wait returns
-- once the channel is closed and drained and no command is in flight.
-- exec.Mustex failures abort the whole process and are outside this model.

structure PoolState where
  toSend : List String
  inFlight : List String
  done : List String
  closed : Bool
  waitReturned : Bool
deriving Repr

def initPool (cmds : List String) : PoolState :=
  { toSend := cmds, inFlight := [], done := [], closed := false, waitReturned := false }

inductive PoolStep (N : Nat) : PoolState → PoolState → Prop where
  | send (c : String) (rest inFlight done : List String) (h : inFlight.length < N) :
      PoolStep N ⟨c :: rest, inFlight, done, false, false⟩
                 ⟨rest, c :: inFlight, done, false, false⟩
  | finish (c : String) (toSend pre post done : List String) (closed : Bool) :
      PoolStep N ⟨toSend, pre ++ c :: post, done, closed, false⟩
                 ⟨toSend, pre ++ post, c :: done, closed, false⟩
  | closeChan (inFlight done : List String) :
      PoolStep N ⟨[], inFlight, done, false, false⟩
                 ⟨[], inFlight, done, true, false⟩
  | waitDone (done : List String) :
      PoolStep N ⟨[], [], done, true, false⟩
                 ⟨[], [], done, true, true⟩

def PoolReachable (N : Nat) (cmds : List String) (s : PoolState) : Prop :=
  Relation.ReflTransGen (PoolStep N) (initPool cmds) s

-- ===========================================================================
-- Part 8: concrete documents used by the closed theorems below.

-- One decoded document: kind Deployment, metadata.name app, one container
-- whose image is the build-target label //app:image.
def unresolvedDoc : Obj :=
  [("kind", .str "Deployment"),
   ("metadata", .map [("name", .str "app")]),
   ("containers", .seq [.map [("image", .str "//app:image")]])]

-- The same image reference sitting under a `container` field instead.
def containerFieldDoc : Obj :=
  [("kind", .str "Deployment"),
   ("metadata", .map [("name", .str "app")]),
   ("container", .map [("image", .str "//app:image")])]

def abcImageMap : ImageMap := [("//app:image", "registry.example.com/app:abc123")]

-- A node where a `containers` shape is present AND a sibling mapping
-- `zz` holds another containers shape deeper down.
def siblingShapesObj : Obj :=
  [("containers", .seq [.map [("image", .str "a")]]),
   ("zz", .map [("containers", .seq [.map [("image", .str "b")]])])]

def siblingShapesMap : ImageMap := [("a", "registry.example.com/a:1"), ("b", "registry.example.com/b:1")]

def siblingShapesResolved : Obj :=
  [("containers", .seq [.map [("image", .str "registry.example.com/a:1")]]),
   ("zz", .map [("containers", .seq [.map [("image", .str "registry.example.com/b:1")]])])]

-- A well-formed document followed by one with an empty metadata.name.
def namedDoc : Obj :=
  [("kind", .str "ConfigMap"), ("metadata", .map [("name", .str "one")])]

def namelessDoc : Obj :=
  [("kind", .str "ConfigMap"), ("metadata", .map [("name", .str "")])]

-- A containers sequence whose first element errors out (unresolved
-- build-target image) before the non-mapping second element is reached.
def mixedContainersObj : Obj :=
  [("containers", .seq [.map [("image", .str "//nope")], .str "not-a-map"])]

-- An env list whose first entry is not a mapping, followed by a
-- well-formed IMAGE_URL entry.
def junkThenEnvEntry : List YVal :=
  [.str "junk", .map [("name", .str "APP_IMAGE_URL"), ("value", .str "//a")]]

def slashAImageMap : ImageMap := [("//a", "registry.example.com/a:1")]


-- ===========================================================================
-- Part 9: helper lemmas about the map primitives.

theorem lookupKey_setKey_self (l : Obj) (k : String) (v : YVal) :
    lookupKey (setKey l k v) k = some v := by
  induction l with
  | nil => simp [setKey, lookupKey]
  | cons hd tl ih =>
    obtain ⟨k2, w⟩ := hd
    by_cases h : k2 = k <;> simp [setKey, lookupKey, h, ih]

theorem lookupKey_setKey_ne (l : Obj) (k k2 : String) (v : YVal) (h : k2 ≠ k) :
    lookupKey (setKey l k v) k2 = lookupKey l k2 := by
  induction l with
  | nil => simp [setKey, lookupKey, Ne.symm h]
  | cons hd tl ih =>
    obtain ⟨k3, w⟩ := hd
    by_cases h3 : k3 = k
    · subst h3
      simp [setKey, lookupKey, Ne.symm h]
    · simp [setKey, lookupKey, h3, ih]

theorem lookupKey_updateContainerEnv_ne (images : ImageMap) (c : Obj) (k : String)
    (h : k ≠ "env") :
    lookupKey (updateContainerEnv images c) k = lookupKey c k := by
  unfold updateContainerEnv
  cases henv : lookupKey c "env" with
  | none => rfl
  | some v =>
    cases v <;> simp [lookupKey_setKey_ne _ _ _ _ h]

-- ===========================================================================
-- Part 10: claim theorems.

/-- C1: the claim is right and the code has a slip. At the failing input — an
image map with no entries and one document whose containers sequence holds
the build-target-prefixed image `//app:image` — the transformer does produce
the error `Unresolved image found: //app:image`, but ResolveImages discards
the return value of findAndReplaceTag at its call site, so the call returns
no error and emits the document still carrying the unresolved label. -/
theorem c1_unresolved_error_discarded :
    findAndReplaceTag [] unresolvedDoc
      = .err "Unresolved image found: //app:image" unresolvedDoc ∧
    ResolveImages [] [Except.ok unresolvedDoc] = .finished [unresolvedDoc] none :=
  ⟨rfl, rfl⟩

/-- C2 counterexample: with image map `{"//app:image": "registry.example.com/app:abc123"}`
and the container spec held by a `container` field, the exact-key image
`//app:image` is NOT rewritten: updateContainer reports it as unresolved
before attempting the lookup, and the emitted document still carries
`//app:image`, not the mapped value. -/
theorem c2_container_field_not_rewritten :
    updateContainer abcImageMap containerFieldDoc "container"
      = .err "unresolved image found: //app:image" containerFieldDoc ∧
    ResolveImages abcImageMap [Except.ok containerFieldDoc]
      = .finished [containerFieldDoc] none :=
  ⟨rfl, rfl⟩

/-- C3 counterexample: at a node whose `containers` shape is found and
handled (image `a` is rewritten), the traversal nevertheless recurses into
the sibling child `zz` and rewrites the nested image `b` as well, because
the `found` flag was overwritten by the final `initContainers` lookup. -/
theorem c3_recursion_after_containers_found :
    findAndReplaceTag siblingShapesMap siblingShapesObj = .ok siblingShapesResolved :=
  rfl

/-- C5 counterexample: on the provider's 422 already-exists conflict, the
standalone CreatePR entry point returns success, but the merge-request step
of the app-credential commit path terminates the process through log.Fatalf
instead of returning success. -/
theorem c5_app_path_conflict_fatal :
    CreatePR (some (422, "pull request already exists")) = none ∧
    createPR (some (422, "pull request already exists"))
      = .fatalExit "failed to create PR: pull request already exists" :=
  ⟨rfl, rfl⟩

/-- C6 counterexample: a stream whose first document is well-formed and whose
second document has an empty metadata.name makes ResolveImages return the
missing-name error, yet the first document has already been written to the
output stream: the failing call leaves partial output. -/
theorem c6_partial_output_emitted :
    ResolveImages [] [Except.ok namedDoc, Except.ok namelessDoc]
      = .finished [namedDoc] (some (.missingName namelessDoc)) :=
  rfl

/-- C7 counterexample: a run that created the temporary checkout directory
and then fails to clone exits through log.Fatalf, i.e. os.Exit, which skips
the deferred os.RemoveAll: the temporary directory is not removed. -/
theorem c7_clone_failure_leaves_tempdir :
    tempDirRemoved ⟨false, true, true, true, true, false, true⟩ = false :=
  rfl

/-- C9 counterexample: a `containers` field holding a sequence that is not a
sequence of mappings (second element is a string) does NOT always panic: here
the first element aborts the loop with an unresolved-image error before the
non-mapping element's type assertion is reached, so the transformer returns
an error rather than panicking. -/
theorem c9_ill_typed_sequence_errors_without_panic :
    updateContainers [] mixedContainersObj "containers"
      = .err "Unresolved image found: //nope" mixedContainersObj :=
  rfl

/-- C10 counterexample: an env entry whose name contains IMAGE_URL and whose
value begins with `//` is NOT replaced when an earlier entry of the env list
is malformed: the non-mapping first entry aborts the scan and the whole list
is returned untouched, the `//a` value included, even though `//a` is a key
of the image map. -/
theorem c10_malformed_sibling_aborts_scan :
    updateContainerEnvLoop slashAImageMap junkThenEnvEntry = junkThenEnvEntry :=
  rfl

/-- C4: with the deployment branch already existing (SwitchToBranch returned
false), the branch is force-discarded and recreated iff the target list
embedded in the branch's last commit message contains a target absent from
the train's current target set; a freshly created branch is never
recreated. When the current set is a superset of, or equal to, the embedded
list, the right-hand side is false, so the branch is reused. -/
theorem c4_branch_recreation_iff (prev cur : List String) :
    branchRecreated true prev cur = false ∧
    (branchRecreated false prev cur = true ↔ ∃ t ∈ prev, t ∉ cur) := by
  constructor
  · simp [branchRecreated]
  · simp only [branchRecreated, Bool.not_true, Bool.false_and, Bool.true_and,
      Bool.not_false, List.any_eq_true, Bool.not_eq_true', List.any_eq_false,
      decide_eq_true_eq, decide_eq_false_iff_not]
    constructor
    · rintro ⟨t, ht, h2⟩
      exact ⟨t, ht, fun hc => h2 t hc rfl⟩
    · rintro ⟨t, ht, h2⟩
      exact ⟨t, ht, fun x hx hxt => h2 (hxt ▸ hx)⟩

/-- C5 amended: on the provider's 422 already-exists conflict the standalone
CreatePR entry point returns success (as it does on creation success, while
any other error status is propagated); the merge-request step of the
app-credential commit path instead turns every creation error, the conflict
included, into a fatal process exit. -/
theorem c5_amended (status : Nat) (m : String) :
    CreatePR none = none ∧
    CreatePR (some (422, m)) = none ∧
    (status ≠ 422 → CreatePR (some (status, m)) = some m) ∧
    createPR (some (status, m)) = .fatalExit ("failed to create PR: " ++ m) ∧
    createPR none = .success := by
  refine ⟨rfl, rfl, ?_, rfl, rfl⟩
  intro h
  simp [CreatePR, h]

/-- C7 amended: the temporary checkout directory is removed exactly on the
normal-return exits of the run (the no-changes early return, the dry-run
path, and full success); every stage failure exits through log.Fatalf, that
is os.Exit, which skips the deferred os.RemoveAll, so the directory is not
removed on clone, target-execution, diff, push or publish failures. -/
theorem c7_amended (e : RunEnv) :
    tempDirRemoved e = true ↔
      (e.cloneOk = true ∧ e.targetsOk = true ∧ e.diffOk = true ∧
        (e.hasChanges = false ∨ (e.pushOk = true ∧ (e.dryRun = true ∨ e.publishOk = true)))) := by
  obtain ⟨a, b, c, d, p, q, r⟩ := e
  cases a <;> cases b <;> cases c <;> cases d <;> cases p <;> cases q <;> cases r <;>
    simp [tempDirRemoved, mainExit, deferredCleanupRuns]

/-- C10 amended: an env entry whose name contains IMAGE_URL and whose string
value begins with `//` (or with `:`, after stripping the colon) has its
value replaced by the direct image-map lookup — the Go zero value "", with
no error, when the key is absent — provided the scan reaches it: entries
are processed left to right and a malformed entry (here, a non-mapping)
aborts the scan, leaving it and all later entries untouched. -/
theorem c10_amended :
    (∀ (images : ImageMap) (m : Obj) (name v : String) (rest : List YVal),
       lookupKey m "name" = some (.str name) →
       strContainsSub name "IMAGE_URL" = true →
       lookupKey m "value" = some (.str v) →
       strStartsWith v "//" = true →
       strStartsWith v ":" = false →
       updateContainerEnvLoop images (.map m :: rest)
         = .map (setKey m "value" (.str (lookupStrD images v)))
             :: updateContainerEnvLoop images rest) ∧
    (∀ (images : ImageMap) (m : Obj) (name v : String) (rest : List YVal),
       lookupKey m "name" = some (.str name) →
       strContainsSub name "IMAGE_URL" = true →
       lookupKey m "value" = some (.str v) →
       strStartsWith v "//" = false →
       strStartsWith v ":" = true →
       updateContainerEnvLoop images (.map m :: rest)
         = .map (setKey m "value" (.str (lookupStrD images (strDrop1 v))))
             :: updateContainerEnvLoop images rest) ∧
    (∀ (images : ImageMap) (x : YVal) (rest : List YVal),
       (∀ m, x ≠ YVal.map m) →
       updateContainerEnvLoop images (x :: rest) = x :: rest) := by
  refine ⟨?_, ?_, ?_⟩
  · intro images m name v rest h1 h2 h3 h4 h5
    simp [updateContainerEnvLoop, h1, h2, h3, h4, h5]
  · intro images m name v rest h1 h2 h3 h4 h5
    simp [updateContainerEnvLoop, h1, h2, h3, h4, h5]
  · intro images x rest hx
    cases x with
    | map m => exact absurd rfl (hx m)
    | str s => rfl
    | num n => rfl
    | boolV b => rfl
    | nullV => rfl
    | seq l => rfl

/-- C10 witness: the first part of the amended theorem at a concrete input
with an empty image map: the env value `//a:img` is silently rewritten to
the empty string. -/
theorem c10_amended_witness :
    lookupKey [("name", YVal.str "APP_IMAGE_URL"), ("value", YVal.str "//a:img")] "name"
      = some (.str "APP_IMAGE_URL") ∧
    updateContainerEnvLoop [] [.map [("name", .str "APP_IMAGE_URL"), ("value", .str "//a:img")]]
      = [.map [("name", .str "APP_IMAGE_URL"), ("value", .str "")]] := by
  refine ⟨rfl, ?_⟩
  have h := c10_amended.1 [] [("name", .str "APP_IMAGE_URL"), ("value", .str "//a:img")]
    "APP_IMAGE_URL" "//a:img" [] rfl rfl rfl rfl rfl
  simpa using h

/-- C9 amended: a present `container` or `spec` field holding a non-mapping
always panics through the unchecked type assertion, as does a present
`containers` or `initContainers` field holding a non-sequence; a sequence
containing a non-mapping element panics when the element is reached, that
is, provided no earlier element of the sequence aborts the loop first with
an unresolved-image error. -/
theorem c9_amended :
    (∀ (images : ImageMap) (obj : Obj) (path : String) (v : YVal),
       lookupKey obj path = some v → (∀ c, v ≠ YVal.map c) →
       ∃ m, updateContainer images obj path = .crash m) ∧
    (∀ (images : ImageMap) (obj : Obj) (path : String) (v : YVal),
       lookupKey obj path = some v → (∀ l, v ≠ YVal.seq l) →
       ∃ m, updateContainers images obj path = .crash m) ∧
    (∀ (images : ImageMap) (pre : List YVal) (item : YVal) (rest : List YVal),
       (∃ pre2, updateContainersLoop images pre = .ok pre2) →
       (∀ c, item ≠ YVal.map c) →
       ∃ m, updateContainersLoop images (pre ++ item :: rest) = .crash m) := by
  refine ⟨?_, ?_, ?_⟩
  · intro images obj path v h hv
    unfold updateContainer
    rw [h]
    cases v with
    | map c => exact absurd rfl (hv c)
    | str s => exact ⟨_, rfl⟩
    | num n => exact ⟨_, rfl⟩
    | boolV b => exact ⟨_, rfl⟩
    | nullV => exact ⟨_, rfl⟩
    | seq l => exact ⟨_, rfl⟩
  · intro images obj path v h hv
    unfold updateContainers
    rw [h]
    cases v with
    | seq l => exact absurd rfl (hv l)
    | str s => exact ⟨_, rfl⟩
    | num n => exact ⟨_, rfl⟩
    | boolV b => exact ⟨_, rfl⟩
    | nullV => exact ⟨_, rfl⟩
    | map c => exact ⟨_, rfl⟩
  · intro images pre
    induction pre with
    | nil =>
      intro item rest _ hv
      cases item with
      | map c => exact absurd rfl (hv c)
      | str s => exact ⟨_, rfl⟩
      | num n => exact ⟨_, rfl⟩
      | boolV b => exact ⟨_, rfl⟩
      | nullV => exact ⟨_, rfl⟩
      | seq l => exact ⟨_, rfl⟩
    | cons x pre ih =>
      intro item rest hok hv
      obtain ⟨pre2, hpre⟩ := hok
      cases x with
      | map c =>
        cases h1 : updateOneContainer images c with
        | ok c2 =>
          cases h2 : updateContainersLoop images pre with
          | ok r2 =>
            obtain ⟨m, hm⟩ := ih item rest ⟨r2, h2⟩ hv
            refine ⟨m, ?_⟩
            simp [updateContainersLoop, h1, hm]
          | err m r2 => simp [updateContainersLoop, h1, h2] at hpre
          | crash m => simp [updateContainersLoop, h1, h2] at hpre
          | fuelOut => simp [updateContainersLoop, h1, h2] at hpre
        | err m c2 => simp [updateContainersLoop, h1] at hpre
        | crash m => simp [updateContainersLoop, h1] at hpre
        | fuelOut => simp [updateContainersLoop, h1] at hpre
      | str s => simp [updateContainersLoop] at hpre
      | num n => simp [updateContainersLoop] at hpre
      | boolV b => simp [updateContainersLoop] at hpre
      | nullV => simp [updateContainersLoop] at hpre
      | seq l => simp [updateContainersLoop] at hpre

/-- C9 witness: the first part of the amended theorem at a concrete input:
a `container` field holding a string makes updateContainer panic. -/
theorem c9_amended_witness :
    lookupKey [("container", YVal.str "oops")] "container" = some (.str "oops") ∧
    ∃ m, updateContainer [] [("container", YVal.str "oops")] "container" = .crash m :=
  ⟨rfl, c9_amended.1 [] [("container", YVal.str "oops")] "container" (.str "oops") rfl
    (fun _ => nofun)⟩

/-- C2 amended: an image name present as an exact key of the image map is
rewritten to the mapped value for a container spec that is an element of a
`containers`/`initContainers` sequence (the direct lookup precedes the
build-target-prefix check there); for the container spec held by a
`container` or `spec` field the exact-key rewrite happens only when the
value does not begin with `//` — updateContainer checks the build-target
prefix before attempting any lookup, so a `//`-prefixed value is reported
as unresolved and left unchanged even when it is an exact key of the map. -/
theorem c2_amended (images : ImageMap) (obj : Obj) (path : String) (c : Obj) (s v : String)
    (hobj : lookupKey obj path = some (.map c))
    (himg : lookupKey c "image" = some (.str s))
    (hmap : lookupStr images s = some v) :
    (∃ c2, updateOneContainer images c = .ok c2 ∧ lookupKey c2 "image" = some (.str v)) ∧
    (strStartsWith s "//" = false →
      updateContainer images obj path
          = .ok (setKey obj path (.map (setKey (updateContainerEnv images c) "image" (.str v)))) ∧
      lookupKey (setKey (updateContainerEnv images c) "image" (.str v)) "image"
          = some (.str v)) ∧
    (strStartsWith s "//" = true →
      updateContainer images obj path
          = .err ("unresolved image found: " ++ s) (setKey obj path (.map (updateContainerEnv images c))) ∧
      lookupKey (updateContainerEnv images c) "image" = some (.str s)) := by
  have henv : lookupKey (updateContainerEnv images c) "image" = some (.str s) := by
    rw [lookupKey_updateContainerEnv_ne images c "image" (by decide), himg]
  have hres : resolveImageName images s = some v := by
    unfold resolveImageName
    rw [hmap]
  refine ⟨?_, ?_, ?_⟩
  · refine ⟨setKey (updateContainerEnv images c) "image" (.str v), ?_, lookupKey_setKey_self _ _ _⟩
    simp [updateOneContainer, henv, hres]
  · intro hsw
    refine ⟨?_, lookupKey_setKey_self _ _ _⟩
    simp [updateContainer, hobj, henv, hsw, hres]
  · intro hsw
    exact ⟨by simp [updateContainer, hobj, henv, hsw], henv⟩

/-- C2 witness: the amended theorem at the concrete scenario of the claim:
image map `{"//app:image": "registry.example.com/app:abc123"}` and a
container spec under a `spec` field whose image is `//app:image`; the first
conjunct shows the containers-sequence path would rewrite it, the third
shows the container/spec path reports it as unresolved and leaves it
unchanged. -/
theorem c2_amended_witness :
    lookupKey [("spec", YVal.map [("image", YVal.str "//app:image")])] "spec"
      = some (.map [("image", .str "//app:image")]) ∧
    ((∃ c2, updateOneContainer abcImageMap [("image", .str "//app:image")] = .ok c2 ∧
        lookupKey c2 "image" = some (.str "registry.example.com/app:abc123")) ∧
     (strStartsWith "//app:image" "//" = true →
       updateContainer abcImageMap [("spec", YVal.map [("image", YVal.str "//app:image")])] "spec"
           = .err ("unresolved image found: " ++ "//app:image")
               (setKey [("spec", YVal.map [("image", YVal.str "//app:image")])] "spec"
                 (.map (updateContainerEnv abcImageMap [("image", .str "//app:image")]))) ∧
       lookupKey (updateContainerEnv abcImageMap [("image", .str "//app:image")]) "image"
           = some (.str "//app:image"))) := by
  have h := c2_amended abcImageMap [("spec", YVal.map [("image", YVal.str "//app:image")])]
    "spec" [("image", .str "//app:image")] "//app:image" "registry.example.com/app:abc123"
    rfl rfl rfl
  exact ⟨rfl, h.1, h.2.2⟩

/-- C6 amended: ResolveImages fails with an error on a decode error that is
not the benign empty-document case, and on a document with empty name or
kind — but the output is streamed per document: a successfully processed
document is written before the rest of the stream is examined, so the
documents preceding the failure remain in the output of the failing call
(a benign empty-document decode error is skipped and processing
continues). -/
theorem c6_amended :
    (∀ (images : ImageMap) (doc : Obj) (evs : List (Except String Obj)) (o2 : Obj),
       getName doc ≠ "" → getKind doc ≠ "" →
       findAndReplaceTag images doc = .ok o2 →
       ResolveImages images (Except.ok doc :: evs)
         = prependDoc o2 (ResolveImages images evs)) ∧
    (∀ (images : ImageMap) (doc : Obj) (evs : List (Except String Obj)) (o2 : Obj) (m : String),
       getName doc ≠ "" → getKind doc ≠ "" →
       findAndReplaceTag images doc = .err m o2 →
       ResolveImages images (Except.ok doc :: evs)
         = prependDoc o2 (ResolveImages images evs)) ∧
    (∀ (images : ImageMap) (m : String) (evs : List (Except String Obj)),
       isEmptyYamlError m = false →
       ResolveImages images (Except.error m :: evs)
         = .finished [] (some (.decodeFail m))) ∧
    (∀ (images : ImageMap) (m : String) (evs : List (Except String Obj)),
       isEmptyYamlError m = true →
       ResolveImages images (Except.error m :: evs) = ResolveImages images evs) ∧
    (∀ (images : ImageMap) (doc : Obj) (evs : List (Except String Obj)),
       getName doc = "" →
       ResolveImages images (Except.ok doc :: evs)
         = .finished [] (some (.missingName doc))) ∧
    (∀ (images : ImageMap) (doc : Obj) (evs : List (Except String Obj)),
       getName doc ≠ "" → getKind doc = "" →
       ResolveImages images (Except.ok doc :: evs)
         = .finished [] (some (.missingKind doc))) := by
  refine ⟨?_, ?_, ?_, ?_, ?_, ?_⟩
  · intro images doc evs o2 hn hk hfar
    simp [ResolveImages, hn, hk, hfar]
  · intro images doc evs o2 m hn hk hfar
    simp [ResolveImages, hn, hk, hfar]
  · intro images m evs hm
    simp [ResolveImages, hm]
  · intro images m evs hm
    simp [ResolveImages, hm]
  · intro images doc evs hn
    simp [ResolveImages, hn]
  · intro images doc evs hn hk
    simp [ResolveImages, hn, hk]

/-- C6 witness: the streaming part of the amended theorem at a concrete
input: the well-formed first document is emitted in front of whatever the
rest of the stream produces. -/
theorem c6_amended_witness :
    getName namedDoc ≠ "" ∧
    ResolveImages [] [Except.ok namedDoc, Except.ok namelessDoc]
      = prependDoc namedDoc (ResolveImages [] [Except.ok namelessDoc]) := by
  refine ⟨by decide, ?_⟩
  exact c6_amended.1 [] namedDoc [Except.ok namelessDoc] namedDoc (by decide) (by decide) rfl

theorem updateContainers_ok_shape (images : ImageMap) (o : Obj) (p : String) (o2 : Obj)
    (h : updateContainers images o p = .ok o2) : ∃ items2, o2 = setKey o p (.seq items2) := by
  unfold updateContainers at h
  cases hv : lookupKey o p with
  | none => simp [hv] at h
  | some v =>
    cases v with
    | seq l =>
      rw [hv] at h
      simp only at h
      cases hloop : updateContainersLoop images l with
      | ok items2 =>
        rw [hloop] at h
        simp at h
        exact ⟨items2, h.symm⟩
      | err m items2 => rw [hloop] at h; simp at h
      | crash m => rw [hloop] at h; simp at h
      | fuelOut => rw [hloop] at h; simp at h
    | str s => simp [hv] at h
    | num n => simp [hv] at h
    | boolV b => simp [hv] at h
    | nullV => simp [hv] at h
    | map c => simp [hv] at h

/-- C3 amended: the shape-handling loops of findAndReplaceTag reassign the
single `found` flag at every key lookup, so when they return successfully
the flag's final value records only whether the node has an
`initContainers` field; the traversal therefore recurses into the node's
children exactly when `initContainers` is absent — even when a `container`,
`spec` or `containers` shape was found and handled at this node — and skips
the children exactly when `initContainers` is present. -/
theorem c3_amended (images : ImageMap) (obj o4 : Obj) (f : Bool) (fuel : Nat)
    (h : findAndReplaceShapes images obj = .ok (o4, f)) :
    f = hasKey o4 "initContainers" ∧
    findAndReplaceTagF images (fuel + 1) obj
      = (if f then .ok o4 else findContainersF images fuel o4) := by
  refine ⟨?_, by simp [findAndReplaceTagF, h]⟩
  simp only [findAndReplaceShapes] at h
  cases hq1 : (if hasKey obj "container" = true then updateContainer images obj "container"
      else TRes.ok obj) with
  | crash m => simp [hq1] at h
  | fuelOut => simp [hq1] at h
  | err m o => simp [hq1] at h
  | ok o1 =>
  rw [hq1] at h
  simp only at h
  cases hq2 : (if hasKey o1 "spec" = true then updateContainer images o1 "spec"
      else TRes.ok o1) with
  | crash m => simp [hq2] at h
  | fuelOut => simp [hq2] at h
  | err m o => simp [hq2] at h
  | ok o2 =>
  rw [hq2] at h
  simp only at h
  cases hq3 : (if hasKey o2 "containers" = true then updateContainers images o2 "containers"
      else TRes.ok o2) with
  | crash m => simp [hq3] at h
  | fuelOut => simp [hq3] at h
  | err m o => simp [hq3] at h
  | ok o3 =>
  rw [hq3] at h
  simp only at h
  cases hq4 : (if hasKey o3 "initContainers" = true then updateContainers images o3 "initContainers"
      else TRes.ok o3) with
  | crash m => simp [hq4] at h
  | fuelOut => simp [hq4] at h
  | err m o => simp [hq4] at h
  | ok o4x =>
  rw [hq4] at h
  simp only [TRes.ok.injEq, Prod.mk.injEq] at h
  obtain ⟨ho4, hf⟩ := h
  subst ho4
  subst hf
  cases hic : hasKey o3 "initContainers" with
  | true =>
    rw [hic] at hq4
    simp at hq4
    obtain ⟨items2, rfl⟩ := updateContainers_ok_shape images o3 "initContainers" o4x hq4
    simp [hic, hasKey, lookupKey_setKey_self]
  | false =>
    rw [hic] at hq4
    simp at hq4
    subst hq4
    exact hic.symm

/-- C3 witness: the amended theorem at a concrete node whose `containers`
shape is present but whose `initContainers` field is absent: the flag comes
back false and the traversal continues into the children. -/
theorem c3_amended_witness :
    findAndReplaceShapes [] [("containers", YVal.seq [])]
      = .ok ([("containers", YVal.seq [])], false) ∧
    (false = hasKey [("containers", YVal.seq [])] "initContainers" ∧
     findAndReplaceTagF [] (5 + 1) [("containers", YVal.seq [])]
       = (if false then .ok [("containers", YVal.seq [])]
          else findContainersF [] 5 [("containers", YVal.seq [])])) :=
  ⟨rfl, c3_amended [] [("containers", YVal.seq [])] [("containers", YVal.seq [])] false 5 rfl⟩

/-- C8: safety of the push coordinator. In every state reachable from the
initial pool state, at most N commands are in flight, and the queued,
in-flight and finished commands together are exactly the original command
list (as a multiset: no command is lost, duplicated or invented); once
wg.Wait has returned, the queue is empty, nothing is in flight, and the
finished commands are exactly the original list — each of the k queued
commands was executed exactly once, and control returns only after all of
them completed. -/
theorem c8_pool_executes_each_once (N : Nat) (cmds : List String) (s : PoolState)
    (h : PoolReachable N cmds s) :
    s.inFlight.length ≤ N ∧
    ((s.toSend : Multiset String) + (s.inFlight : Multiset String) + (s.done : Multiset String)
        = (cmds : Multiset String)) ∧
    (s.waitReturned = true →
      s.toSend = [] ∧ s.inFlight = [] ∧
        ((s.done : Multiset String) = (cmds : Multiset String))) := by
  induction h with
  | refl => simp [initPool]
  | tail hreach hstep ih =>
    obtain ⟨len_le, hperm, hwait⟩ := ih
    cases hstep with
    | send c rest inFlight done hlt =>
      refine ⟨by simpa using hlt, ?_, by simp⟩
      simp only [← Multiset.cons_coe, Multiset.cons_add, Multiset.add_cons] at hperm ⊢
      exact hperm
    | finish c toSend pre post done closed =>
      refine ⟨?_, ?_, by simp⟩
      · simp only [List.length_append, List.length_cons] at len_le ⊢
        omega
      · simp only [← Multiset.coe_add, ← Multiset.cons_coe, Multiset.cons_add,
          Multiset.add_cons] at hperm ⊢
        exact hperm
    | closeChan inFlight done =>
      exact ⟨len_le, hperm, by simp⟩
    | waitDone done =>
      refine ⟨by simp, by simpa using hperm, fun _ => ⟨rfl, rfl, by simpa using hperm⟩⟩

/-- C8 witness: the theorem applied to the initial state of the claim's
concrete scenario, seven queued push commands with parallelism three. -/
theorem c8_pool_witness :
    PoolReachable 3 ["c1", "c2", "c3", "c4", "c5", "c6", "c7"]
      (initPool ["c1", "c2", "c3", "c4", "c5", "c6", "c7"]) ∧
    (initPool ["c1", "c2", "c3", "c4", "c5", "c6", "c7"]).inFlight.length ≤ 3 :=
  ⟨Relation.ReflTransGen.refl,
   (c8_pool_executes_each_once 3 ["c1", "c2", "c3", "c4", "c5", "c6", "c7"]
     (initPool ["c1", "c2", "c3", "c4", "c5", "c6", "c7"]) Relation.ReflTransGen.refl).1⟩

-- ===========================================================================
-- Part 11: faithfulness of the fuel embedding. The shape handling replaces
-- strings by strings only, so the structural size of a document is
-- invariant along the traversal; the theorems below conclude that with the
-- wrapper's fuel bound the traversal's value no longer depends on the fuel
-- and is never the fuelOut artifact.

theorem ysize_pos (v : YVal) : 1 ≤ ysize v := by
  cases v <;> simp [ysize]

theorem esize_setKey (l : Obj) (k : String) (v w : YVal)
    (hw : lookupKey l k = some w) (hsz : ysize v = ysize w) :
    esize (setKey l k v) = esize l := by
  induction l with
  | nil => simp [lookupKey] at hw
  | cons hd tl ih =>
    obtain ⟨k2, u⟩ := hd
    by_cases h2 : k2 = k
    · subst h2
      simp [lookupKey] at hw
      subst hw
      simp [setKey, esize, hsz]
    · simp [lookupKey, h2] at hw
      simp [setKey, esize, h2, ih hw]

theorem lookupKey_str_exists_after_set (l : Obj) (k : String) (s s2 : String)
    (h : lookupKey l k = some (.str s)) :
    ∃ s3, lookupKey (if strStartsWith s "//" then setKey l k (.str s2) else l) k
      = some (.str s3) := by
  split
  · exact ⟨s2, lookupKey_setKey_self _ _ _⟩
  · exact ⟨s, h⟩

theorem lsize_updateContainerEnvLoop (images : ImageMap) (l : List YVal) :
    lsize (updateContainerEnvLoop images l) = lsize l := by
  induction l with
  | nil => rfl
  | cons kv rest ih =>
    cases kv with
    | map m =>
      cases hn : lookupKey m "name" with
      | none => simp [updateContainerEnvLoop, hn]
      | some nv =>
        cases nv with
        | str envName =>
          by_cases hc : strContainsSub envName "IMAGE_URL" = true
          · cases hv : lookupKey m "value" with
            | none => simp [updateContainerEnvLoop, hn, hc, hv]
            | some vv =>
              cases vv with
              | str envValue =>
                obtain ⟨s3, hm1⟩ :=
                  lookupKey_str_exists_after_set m "value" envValue
                    (lookupStrD images envValue) hv
                have e1 : esize (if strStartsWith envValue "//"
                    then setKey m "value" (.str (lookupStrD images envValue)) else m)
                    = esize m := by
                  split
                  · exact esize_setKey m "value" _ _ hv rfl
                  · rfl
                have e2 : esize (if strStartsWith envValue ":"
                    then setKey
                      (if strStartsWith envValue "//"
                        then setKey m "value" (.str (lookupStrD images envValue)) else m)
                      "value" (.str (lookupStrD images (strDrop1 envValue)))
                    else (if strStartsWith envValue "//"
                      then setKey m "value" (.str (lookupStrD images envValue)) else m))
                    = esize m := by
                  split
                  · rw [esize_setKey _ "value"
                      (.str (lookupStrD images (strDrop1 envValue))) (.str s3) hm1 rfl]
                    exact e1
                  · exact e1
                simp [updateContainerEnvLoop, hn, hc, hv, lsize, ysize, ih, e2]
              | num n => simp [updateContainerEnvLoop, hn, hc, hv]
              | boolV b => simp [updateContainerEnvLoop, hn, hc, hv]
              | nullV => simp [updateContainerEnvLoop, hn, hc, hv]
              | map mm => simp [updateContainerEnvLoop, hn, hc, hv]
              | seq ss => simp [updateContainerEnvLoop, hn, hc, hv]
          · simp [updateContainerEnvLoop, hn, hc, lsize, ih]
        | num n => simp [updateContainerEnvLoop, hn]
        | boolV b => simp [updateContainerEnvLoop, hn]
        | nullV => simp [updateContainerEnvLoop, hn]
        | map mm => simp [updateContainerEnvLoop, hn]
        | seq ss => simp [updateContainerEnvLoop, hn]
    | str s => rfl
    | num n => rfl
    | boolV b => rfl
    | nullV => rfl
    | seq ss => rfl

theorem esize_updateContainerEnv (images : ImageMap) (c : Obj) :
    esize (updateContainerEnv images c) = esize c := by
  unfold updateContainerEnv
  cases he : lookupKey c "env" with
  | none => rfl
  | some v =>
    cases v with
    | seq items =>
      rw [esize_setKey c "env" _ _ he]
      simp [ysize, lsize_updateContainerEnvLoop]
    | str s => rfl
    | num n => rfl
    | boolV b => rfl
    | nullV => rfl
    | map mm => rfl

theorem updateOneContainer_ok_esize (images : ImageMap) (c : Obj) :
    ∀ r, updateOneContainer images c = .ok r → esize r = esize c := by
  intro r h
  have hbase := esize_updateContainerEnv images c
  cases himg : lookupKey (updateContainerEnv images c) "image" with
  | none =>
    simp [updateOneContainer, himg] at h
    subst h
    exact hbase
  | some v =>
    cases v with
    | str s =>
      cases hres : resolveImageName images s with
      | some n =>
        simp [updateOneContainer, himg, hres] at h
        subst h
        rw [esize_setKey _ "image" (.str n) (.str s) himg rfl]
        exact hbase
      | none =>
        by_cases hsw : strStartsWith s "//" = true
        · simp [updateOneContainer, himg, hres, hsw] at h
        · simp [updateOneContainer, himg, hres, hsw] at h
          subst h
          exact hbase
    | num n => simp [updateOneContainer, himg] at h; subst h; exact hbase
    | boolV b => simp [updateOneContainer, himg] at h; subst h; exact hbase
    | nullV => simp [updateOneContainer, himg] at h; subst h; exact hbase
    | map mm => simp [updateOneContainer, himg] at h; subst h; exact hbase
    | seq ss => simp [updateOneContainer, himg] at h; subst h; exact hbase

theorem updateOneContainer_err_esize (images : ImageMap) (c : Obj) :
    ∀ m r, updateOneContainer images c = .err m r → esize r = esize c := by
  intro m r h
  have hbase := esize_updateContainerEnv images c
  cases himg : lookupKey (updateContainerEnv images c) "image" with
  | none => simp [updateOneContainer, himg] at h
  | some v =>
    cases v with
    | str s =>
      cases hres : resolveImageName images s with
      | some n => simp [updateOneContainer, himg, hres] at h
      | none =>
        by_cases hsw : strStartsWith s "//" = true
        · simp [updateOneContainer, himg, hres, hsw] at h
          obtain ⟨-, h2⟩ := h
          subst h2
          exact hbase
        · simp [updateOneContainer, himg, hres, hsw] at h
    | num n => simp [updateOneContainer, himg] at h
    | boolV b => simp [updateOneContainer, himg] at h
    | nullV => simp [updateOneContainer, himg] at h
    | map mm => simp [updateOneContainer, himg] at h
    | seq ss => simp [updateOneContainer, himg] at h

theorem updateContainersLoop_ok_lsize (images : ImageMap) :
    ∀ l r, updateContainersLoop images l = .ok r → lsize r = lsize l := by
  intro l
  induction l with
  | nil =>
    intro r h
    simp [updateContainersLoop] at h
    subst h
    rfl
  | cons item rest ih =>
    intro r h
    cases item with
    | map c =>
      cases h1 : updateOneContainer images c with
      | ok c2 =>
        cases h2 : updateContainersLoop images rest with
        | ok r2 =>
          simp [updateContainersLoop, h1, h2] at h
          subst h
          simp [lsize, ysize, ih r2 h2, updateOneContainer_ok_esize images c c2 h1]
        | err m r2 => simp [updateContainersLoop, h1, h2] at h
        | crash m => simp [updateContainersLoop, h1, h2] at h
        | fuelOut => simp [updateContainersLoop, h1, h2] at h
      | err m c2 => simp [updateContainersLoop, h1] at h
      | crash m => simp [updateContainersLoop, h1] at h
      | fuelOut => simp [updateContainersLoop, h1] at h
    | str s => simp [updateContainersLoop] at h
    | num n => simp [updateContainersLoop] at h
    | boolV b => simp [updateContainersLoop] at h
    | nullV => simp [updateContainersLoop] at h
    | seq ss => simp [updateContainersLoop] at h

theorem updateContainersLoop_err_lsize (images : ImageMap) :
    ∀ l m r, updateContainersLoop images l = .err m r → lsize r = lsize l := by
  intro l
  induction l with
  | nil =>
    intro m r h
    simp [updateContainersLoop] at h
  | cons item rest ih =>
    intro m r h
    cases item with
    | map c =>
      cases h1 : updateOneContainer images c with
      | ok c2 =>
        cases h2 : updateContainersLoop images rest with
        | ok r2 => simp [updateContainersLoop, h1, h2] at h
        | err m2 r2 =>
          simp [updateContainersLoop, h1, h2] at h
          obtain ⟨-, h3⟩ := h
          subst h3
          simp [lsize, ysize, ih m2 r2 h2, updateOneContainer_ok_esize images c c2 h1]
        | crash m2 => simp [updateContainersLoop, h1, h2] at h
        | fuelOut => simp [updateContainersLoop, h1, h2] at h
      | err m2 c2 =>
        simp [updateContainersLoop, h1] at h
        obtain ⟨-, h3⟩ := h
        subst h3
        simp [lsize, ysize, updateOneContainer_err_esize images c m2 c2 h1]
      | crash m2 => simp [updateContainersLoop, h1] at h
      | fuelOut => simp [updateContainersLoop, h1] at h
    | str s => simp [updateContainersLoop] at h
    | num n => simp [updateContainersLoop] at h
    | boolV b => simp [updateContainersLoop] at h
    | nullV => simp [updateContainersLoop] at h
    | seq ss => simp [updateContainersLoop] at h

theorem updateContainers_ok_esize (images : ImageMap) (obj : Obj) (p : String) :
    ∀ r, updateContainers images obj p = .ok r → esize r = esize obj := by
  intro r h
  cases hv : lookupKey obj p with
  | none => simp [updateContainers, hv] at h
  | some v =>
    cases v with
    | seq items =>
      cases hloop : updateContainersLoop images items with
      | ok items2 =>
        simp [updateContainers, hv, hloop] at h
        subst h
        rw [esize_setKey obj p (.seq items2) (.seq items) hv]
        simp [ysize, updateContainersLoop_ok_lsize images items items2 hloop]
      | err m items2 => simp [updateContainers, hv, hloop] at h
      | crash m => simp [updateContainers, hv, hloop] at h
      | fuelOut => simp [updateContainers, hv, hloop] at h
    | str s => simp [updateContainers, hv] at h
    | num n => simp [updateContainers, hv] at h
    | boolV b => simp [updateContainers, hv] at h
    | nullV => simp [updateContainers, hv] at h
    | map mm => simp [updateContainers, hv] at h

theorem updateContainers_err_esize (images : ImageMap) (obj : Obj) (p : String) :
    ∀ m r, updateContainers images obj p = .err m r → esize r = esize obj := by
  intro m r h
  cases hv : lookupKey obj p with
  | none => simp [updateContainers, hv] at h
  | some v =>
    cases v with
    | seq items =>
      cases hloop : updateContainersLoop images items with
      | ok items2 => simp [updateContainers, hv, hloop] at h
      | err m2 items2 =>
        simp [updateContainers, hv, hloop] at h
        obtain ⟨-, h2⟩ := h
        subst h2
        rw [esize_setKey obj p (.seq items2) (.seq items) hv]
        simp [ysize, updateContainersLoop_err_lsize images items m2 items2 hloop]
      | crash m2 => simp [updateContainers, hv, hloop] at h
      | fuelOut => simp [updateContainers, hv, hloop] at h
    | str s => simp [updateContainers, hv] at h
    | num n => simp [updateContainers, hv] at h
    | boolV b => simp [updateContainers, hv] at h
    | nullV => simp [updateContainers, hv] at h
    | map mm => simp [updateContainers, hv] at h

theorem updateContainer_ok_esize (images : ImageMap) (obj : Obj) (p : String) :
    ∀ r, updateContainer images obj p = .ok r → esize r = esize obj := by
  intro r h
  cases hv : lookupKey obj p with
  | none => simp [updateContainer, hv] at h
  | some v =>
    cases v with
    | map c0 =>
      have hbase := esize_updateContainerEnv images c0
      cases himg : lookupKey (updateContainerEnv images c0) "image" with
      | none =>
        simp [updateContainer, hv, himg] at h
        subst h
        rw [esize_setKey obj p _ (.map c0) hv]
        simp [ysize, hbase]
      | some w =>
        cases w with
        | str s =>
          by_cases hsw : strStartsWith s "//" = true
          · simp [updateContainer, hv, himg, hsw] at h
          · cases hres : resolveImageName images s with
            | some n =>
              simp [updateContainer, hv, himg, hsw, hres] at h
              subst h
              rw [esize_setKey obj p _ (.map c0) hv]
              simp only [ysize]
              rw [esize_setKey _ "image" (.str n) (.str s) himg rfl, hbase]
            | none =>
              simp [updateContainer, hv, himg, hsw, hres] at h
              subst h
              rw [esize_setKey obj p _ (.map c0) hv]
              simp [ysize, hbase]
        | num n =>
          simp [updateContainer, hv, himg] at h
          subst h
          rw [esize_setKey obj p _ (.map c0) hv]
          simp [ysize, hbase]
        | boolV b =>
          simp [updateContainer, hv, himg] at h
          subst h
          rw [esize_setKey obj p _ (.map c0) hv]
          simp [ysize, hbase]
        | nullV =>
          simp [updateContainer, hv, himg] at h
          subst h
          rw [esize_setKey obj p _ (.map c0) hv]
          simp [ysize, hbase]
        | map mm =>
          simp [updateContainer, hv, himg] at h
          subst h
          rw [esize_setKey obj p _ (.map c0) hv]
          simp [ysize, hbase]
        | seq ss =>
          simp [updateContainer, hv, himg] at h
          subst h
          rw [esize_setKey obj p _ (.map c0) hv]
          simp [ysize, hbase]
    | str s => simp [updateContainer, hv] at h
    | num n => simp [updateContainer, hv] at h
    | boolV b => simp [updateContainer, hv] at h
    | nullV => simp [updateContainer, hv] at h
    | seq ss => simp [updateContainer, hv] at h

theorem updateContainer_err_esize (images : ImageMap) (obj : Obj) (p : String) :
    ∀ m r, updateContainer images obj p = .err m r → esize r = esize obj := by
  intro m r h
  cases hv : lookupKey obj p with
  | none => simp [updateContainer, hv] at h
  | some v =>
    cases v with
    | map c0 =>
      have hbase := esize_updateContainerEnv images c0
      cases himg : lookupKey (updateContainerEnv images c0) "image" with
      | none => simp [updateContainer, hv, himg] at h
      | some w =>
        cases w with
        | str s =>
          by_cases hsw : strStartsWith s "//" = true
          · simp [updateContainer, hv, himg, hsw] at h
            obtain ⟨-, h2⟩ := h
            subst h2
            rw [esize_setKey obj p _ (.map c0) hv]
            simp [ysize, hbase]
          · cases hres : resolveImageName images s with
            | some n => simp [updateContainer, hv, himg, hsw, hres] at h
            | none => simp [updateContainer, hv, himg, hsw, hres] at h
        | num n => simp [updateContainer, hv, himg] at h
        | boolV b => simp [updateContainer, hv, himg] at h
        | nullV => simp [updateContainer, hv, himg] at h
        | map mm => simp [updateContainer, hv, himg] at h
        | seq ss => simp [updateContainer, hv, himg] at h
    | str s => simp [updateContainer, hv] at h
    | num n => simp [updateContainer, hv] at h
    | boolV b => simp [updateContainer, hv] at h
    | nullV => simp [updateContainer, hv] at h
    | seq ss => simp [updateContainer, hv] at h

theorem findAndReplaceShapes_ok_esize (images : ImageMap) (obj : Obj) :
    ∀ o4 f, findAndReplaceShapes images obj = .ok (o4, f) → esize o4 = esize obj := by
  intro o4 f h
  simp only [findAndReplaceShapes] at h
  cases hq1 : (if hasKey obj "container" = true then updateContainer images obj "container"
      else TRes.ok obj) with
  | crash m => simp [hq1] at h
  | fuelOut => simp [hq1] at h
  | err m o => simp [hq1] at h
  | ok o1 =>
  have e1 : esize o1 = esize obj := by
    split at hq1
    · exact updateContainer_ok_esize images obj "container" o1 hq1
    · simp at hq1
      subst hq1
      rfl
  rw [hq1] at h
  simp only at h
  cases hq2 : (if hasKey o1 "spec" = true then updateContainer images o1 "spec"
      else TRes.ok o1) with
  | crash m => simp [hq2] at h
  | fuelOut => simp [hq2] at h
  | err m o => simp [hq2] at h
  | ok o2 =>
  have e2 : esize o2 = esize o1 := by
    split at hq2
    · exact updateContainer_ok_esize images o1 "spec" o2 hq2
    · simp at hq2
      subst hq2
      rfl
  rw [hq2] at h
  simp only at h
  cases hq3 : (if hasKey o2 "containers" = true then updateContainers images o2 "containers"
      else TRes.ok o2) with
  | crash m => simp [hq3] at h
  | fuelOut => simp [hq3] at h
  | err m o => simp [hq3] at h
  | ok o3 =>
  have e3 : esize o3 = esize o2 := by
    split at hq3
    · exact updateContainers_ok_esize images o2 "containers" o3 hq3
    · simp at hq3
      subst hq3
      rfl
  rw [hq3] at h
  simp only at h
  cases hq4 : (if hasKey o3 "initContainers" = true then updateContainers images o3 "initContainers"
      else TRes.ok o3) with
  | crash m => simp [hq4] at h
  | fuelOut => simp [hq4] at h
  | err m o => simp [hq4] at h
  | ok o4x =>
  have e4 : esize o4x = esize o3 := by
    split at hq4
    · exact updateContainers_ok_esize images o3 "initContainers" o4x hq4
    · simp at hq4
      subst hq4
      rfl
  rw [hq4] at h
  simp only [TRes.ok.injEq, Prod.mk.injEq] at h
  obtain ⟨ho4, -⟩ := h
  subst ho4
  rw [e4, e3, e2, e1]

theorem updateOneContainer_ne_fuelOut (images : ImageMap) (c : Obj) :
    updateOneContainer images c ≠ .fuelOut := by
  simp only [updateOneContainer]
  cases himg : lookupKey (updateContainerEnv images c) "image" with
  | none => simp [himg]
  | some v =>
    cases v with
    | str s =>
      cases hres : resolveImageName images s with
      | some n => simp [himg, hres]
      | none =>
        by_cases hsw : strStartsWith s "//" = true
        · simp [himg, hres, hsw]
        · simp [himg, hres, hsw]
    | num n => simp [himg]
    | boolV b => simp [himg]
    | nullV => simp [himg]
    | map mm => simp [himg]
    | seq ss => simp [himg]

theorem updateContainersLoop_ne_fuelOut (images : ImageMap) :
    ∀ l, updateContainersLoop images l ≠ .fuelOut := by
  intro l
  induction l with
  | nil => simp [updateContainersLoop]
  | cons item rest ih =>
    cases item with
    | map c =>
      cases h1 : updateOneContainer images c with
      | fuelOut => exact absurd h1 (updateOneContainer_ne_fuelOut images c)
      | crash m => simp [updateContainersLoop, h1]
      | err m c2 => simp [updateContainersLoop, h1]
      | ok c2 =>
        cases h2 : updateContainersLoop images rest with
        | fuelOut => exact absurd h2 ih
        | crash m => simp [updateContainersLoop, h1, h2]
        | err m r2 => simp [updateContainersLoop, h1, h2]
        | ok r2 => simp [updateContainersLoop, h1, h2]
    | str s => simp [updateContainersLoop]
    | num n => simp [updateContainersLoop]
    | boolV b => simp [updateContainersLoop]
    | nullV => simp [updateContainersLoop]
    | seq ss => simp [updateContainersLoop]

theorem updateContainers_ne_fuelOut (images : ImageMap) (obj : Obj) (p : String) :
    updateContainers images obj p ≠ .fuelOut := by
  cases hv : lookupKey obj p with
  | none => simp [updateContainers, hv]
  | some v =>
    cases v with
    | seq items =>
      cases hloop : updateContainersLoop images items with
      | fuelOut => exact absurd hloop (updateContainersLoop_ne_fuelOut images items)
      | crash m => simp [updateContainers, hv, hloop]
      | err m r => simp [updateContainers, hv, hloop]
      | ok r => simp [updateContainers, hv, hloop]
    | str s => simp [updateContainers, hv]
    | num n => simp [updateContainers, hv]
    | boolV b => simp [updateContainers, hv]
    | nullV => simp [updateContainers, hv]
    | map mm => simp [updateContainers, hv]

theorem updateContainer_ne_fuelOut (images : ImageMap) (obj : Obj) (p : String) :
    updateContainer images obj p ≠ .fuelOut := by
  cases hv : lookupKey obj p with
  | none => simp [updateContainer, hv]
  | some v =>
    cases v with
    | map c0 =>
      cases himg : lookupKey (updateContainerEnv images c0) "image" with
      | none => simp [updateContainer, hv, himg]
      | some w =>
        cases w with
        | str s =>
          by_cases hsw : strStartsWith s "//" = true
          · simp [updateContainer, hv, himg, hsw]
          · cases hres : resolveImageName images s with
            | some n => simp [updateContainer, hv, himg, hsw, hres]
            | none => simp [updateContainer, hv, himg, hsw, hres]
        | num n => simp [updateContainer, hv, himg]
        | boolV b => simp [updateContainer, hv, himg]
        | nullV => simp [updateContainer, hv, himg]
        | map mm => simp [updateContainer, hv, himg]
        | seq ss => simp [updateContainer, hv, himg]
    | str s => simp [updateContainer, hv]
    | num n => simp [updateContainer, hv]
    | boolV b => simp [updateContainer, hv]
    | nullV => simp [updateContainer, hv]
    | seq ss => simp [updateContainer, hv]

theorem findAndReplaceShapes_ne_fuelOut (images : ImageMap) (obj : Obj) :
    findAndReplaceShapes images obj ≠ .fuelOut := by
  simp only [findAndReplaceShapes]
  cases hq1 : (if hasKey obj "container" = true then updateContainer images obj "container"
      else TRes.ok obj) with
  | fuelOut =>
    exfalso
    split at hq1
    · exact absurd hq1 (updateContainer_ne_fuelOut images obj "container")
    · simp at hq1
  | crash m => simp [hq1]
  | err m o => simp [hq1]
  | ok o1 =>
  cases hq2 : (if hasKey o1 "spec" = true then updateContainer images o1 "spec"
      else TRes.ok o1) with
  | fuelOut =>
    exfalso
    split at hq2
    · exact absurd hq2 (updateContainer_ne_fuelOut images o1 "spec")
    · simp at hq2
  | crash m => simp [hq1, hq2]
  | err m o => simp [hq1, hq2]
  | ok o2 =>
  cases hq3 : (if hasKey o2 "containers" = true then updateContainers images o2 "containers"
      else TRes.ok o2) with
  | fuelOut =>
    exfalso
    split at hq3
    · exact absurd hq3 (updateContainers_ne_fuelOut images o2 "containers")
    · simp at hq3
  | crash m => simp [hq1, hq2, hq3]
  | err m o => simp [hq1, hq2, hq3]
  | ok o3 =>
  cases hq4 : (if hasKey o3 "initContainers" = true then updateContainers images o3 "initContainers"
      else TRes.ok o3) with
  | fuelOut =>
    exfalso
    split at hq4
    · exact absurd hq4 (updateContainers_ne_fuelOut images o3 "initContainers")
    · simp at hq4
  | crash m => simp [hq1, hq2, hq3, hq4]
  | err m o => simp [hq1, hq2, hq3, hq4]
  | ok o4 => simp [hq1, hq2, hq3, hq4]

theorem traversal_fuel_stable :
    ∀ n : Nat,
      (∀ (images : ImageMap) (obj : Obj) (fuel : Nat),
        fuel ≤ n → 2 * esize obj + 2 ≤ fuel →
        (∀ fuel2, fuel ≤ fuel2 →
          findAndReplaceTagF images fuel2 obj = findAndReplaceTagF images fuel obj) ∧
        findAndReplaceTagF images fuel obj ≠ .fuelOut) ∧
      (∀ (images : ImageMap) (l : Obj) (fuel : Nat),
        fuel ≤ n → 2 * esize l + 1 ≤ fuel →
        (∀ fuel2, fuel ≤ fuel2 →
          findContainersF images fuel2 l = findContainersF images fuel l) ∧
        findContainersF images fuel l ≠ .fuelOut) ∧
      (∀ (images : ImageMap) (l : List YVal) (fuel : Nat),
        fuel ≤ n → 2 * lsize l + 1 ≤ fuel →
        (∀ fuel2, fuel ≤ fuel2 →
          findContainersItemsF images fuel2 l = findContainersItemsF images fuel l) ∧
        findContainersItemsF images fuel l ≠ .fuelOut) := by
  intro n
  induction n using Nat.strong_induction_on with
  | _ n ih =>
  refine ⟨?_, ?_, ?_⟩
  · intro images obj fuel hn hb
    obtain ⟨f, rfl⟩ : ∃ f, fuel = f + 1 := ⟨fuel - 1, by omega⟩
    cases hs : findAndReplaceShapes images obj with
    | fuelOut => exact absurd hs (findAndReplaceShapes_ne_fuelOut images obj)
    | crash m =>
      refine ⟨fun fuel2 hle => ?_, by simp [findAndReplaceTagF, hs]⟩
      obtain ⟨g, rfl⟩ : ∃ g, fuel2 = g + 1 := ⟨fuel2 - 1, by omega⟩
      simp [findAndReplaceTagF, hs]
    | err m o =>
      refine ⟨fun fuel2 hle => ?_, by simp [findAndReplaceTagF, hs]⟩
      obtain ⟨g, rfl⟩ : ∃ g, fuel2 = g + 1 := ⟨fuel2 - 1, by omega⟩
      simp [findAndReplaceTagF, hs]
    | ok p =>
      obtain ⟨o4, found⟩ := p
      cases found with
      | true =>
        refine ⟨fun fuel2 hle => ?_, by simp [findAndReplaceTagF, hs]⟩
        obtain ⟨g, rfl⟩ : ∃ g, fuel2 = g + 1 := ⟨fuel2 - 1, by omega⟩
        simp [findAndReplaceTagF, hs]
      | false =>
        have he : esize o4 = esize obj := findAndReplaceShapes_ok_esize images obj o4 false hs
        have hfn : f < n := by omega
        have hIH := (ih f hfn).2.1 images o4 f (le_refl f) (by omega)
        constructor
        · intro fuel2 hle
          obtain ⟨g, rfl⟩ : ∃ g, fuel2 = g + 1 := ⟨fuel2 - 1, by omega⟩
          simp only [findAndReplaceTagF, hs]
          simp only [Bool.false_eq_true, if_false]
          exact hIH.1 g (by omega)
        · simp only [findAndReplaceTagF, hs]
          simp only [Bool.false_eq_true, if_false]
          exact hIH.2
  · intro images l fuel hn hb
    obtain ⟨f, rfl⟩ : ∃ f, fuel = f + 1 := ⟨fuel - 1, by omega⟩
    cases l with
    | nil =>
      refine ⟨fun fuel2 hle => ?_, by simp [findContainersF]⟩
      obtain ⟨g, rfl⟩ : ∃ g, fuel2 = g + 1 := ⟨fuel2 - 1, by omega⟩
      simp [findContainersF]
    | cons kv rest =>
      obtain ⟨k, v⟩ := kv
      have hfn : f < n := by omega
      cases v with
      | map m =>
        have hem : esize ((k, YVal.map m) :: rest) = 1 + esize m + esize rest := rfl
        have hIHm := (ih f hfn).1 images m f (le_refl f) (by omega)
        have hIHr := (ih f hfn).2.1 images rest f (le_refl f) (by omega)
        constructor
        · intro fuel2 hle
          obtain ⟨g, rfl⟩ : ∃ g, fuel2 = g + 1 := ⟨fuel2 - 1, by omega⟩
          simp only [findContainersF]
          rw [hIHm.1 g (by omega), hIHr.1 g (by omega)]
        · simp only [findContainersF]
          cases hm2 : findAndReplaceTagF images f m with
          | fuelOut => exact absurd hm2 hIHm.2
          | crash msg => simp [hm2]
          | err msg mm => simp [hm2]
          | ok mm =>
            cases hr2 : findContainersF images f rest with
            | fuelOut => exact absurd hr2 hIHr.2
            | crash msg => simp [hm2, hr2]
            | err msg rr => simp [hm2, hr2]
            | ok rr => simp [hm2, hr2]
      | seq items =>
        have hem : esize ((k, YVal.seq items) :: rest) = 1 + lsize items + esize rest := rfl
        have hIHi := (ih f hfn).2.2 images items f (le_refl f) (by omega)
        have hIHr := (ih f hfn).2.1 images rest f (le_refl f) (by omega)
        constructor
        · intro fuel2 hle
          obtain ⟨g, rfl⟩ : ∃ g, fuel2 = g + 1 := ⟨fuel2 - 1, by omega⟩
          simp only [findContainersF]
          rw [hIHi.1 g (by omega), hIHr.1 g (by omega)]
        · simp only [findContainersF]
          cases hm2 : findContainersItemsF images f items with
          | fuelOut => exact absurd hm2 hIHi.2
          | crash msg => simp [hm2]
          | err msg mm => simp [hm2]
          | ok mm =>
            cases hr2 : findContainersF images f rest with
            | fuelOut => exact absurd hr2 hIHr.2
            | crash msg => simp [hm2, hr2]
            | err msg rr => simp [hm2, hr2]
            | ok rr => simp [hm2, hr2]
      | str s =>
        have hem : esize ((k, YVal.str s) :: rest) = 1 + esize rest := rfl
        have hIHr := (ih f hfn).2.1 images rest f (le_refl f) (by omega)
        constructor
        · intro fuel2 hle
          obtain ⟨g, rfl⟩ : ∃ g, fuel2 = g + 1 := ⟨fuel2 - 1, by omega⟩
          simp only [findContainersF]
          rw [hIHr.1 g (by omega)]
        · simp only [findContainersF]
          cases hr2 : findContainersF images f rest with
          | fuelOut => exact absurd hr2 hIHr.2
          | crash msg => simp [hr2]
          | err msg rr => simp [hr2]
          | ok rr => simp [hr2]
      | num nv =>
        have hem : esize ((k, YVal.num nv) :: rest) = 1 + esize rest := rfl
        have hIHr := (ih f hfn).2.1 images rest f (le_refl f) (by omega)
        constructor
        · intro fuel2 hle
          obtain ⟨g, rfl⟩ : ∃ g, fuel2 = g + 1 := ⟨fuel2 - 1, by omega⟩
          simp only [findContainersF]
          rw [hIHr.1 g (by omega)]
        · simp only [findContainersF]
          cases hr2 : findContainersF images f rest with
          | fuelOut => exact absurd hr2 hIHr.2
          | crash msg => simp [hr2]
          | err msg rr => simp [hr2]
          | ok rr => simp [hr2]
      | boolV bv =>
        have hem : esize ((k, YVal.boolV bv) :: rest) = 1 + esize rest := rfl
        have hIHr := (ih f hfn).2.1 images rest f (le_refl f) (by omega)
        constructor
        · intro fuel2 hle
          obtain ⟨g, rfl⟩ : ∃ g, fuel2 = g + 1 := ⟨fuel2 - 1, by omega⟩
          simp only [findContainersF]
          rw [hIHr.1 g (by omega)]
        · simp only [findContainersF]
          cases hr2 : findContainersF images f rest with
          | fuelOut => exact absurd hr2 hIHr.2
          | crash msg => simp [hr2]
          | err msg rr => simp [hr2]
          | ok rr => simp [hr2]
      | nullV =>
        have hem : esize ((k, YVal.nullV) :: rest) = 1 + esize rest := rfl
        have hIHr := (ih f hfn).2.1 images rest f (le_refl f) (by omega)
        constructor
        · intro fuel2 hle
          obtain ⟨g, rfl⟩ : ∃ g, fuel2 = g + 1 := ⟨fuel2 - 1, by omega⟩
          simp only [findContainersF]
          rw [hIHr.1 g (by omega)]
        · simp only [findContainersF]
          cases hr2 : findContainersF images f rest with
          | fuelOut => exact absurd hr2 hIHr.2
          | crash msg => simp [hr2]
          | err msg rr => simp [hr2]
          | ok rr => simp [hr2]
  · intro images l fuel hn hb
    obtain ⟨f, rfl⟩ : ∃ f, fuel = f + 1 := ⟨fuel - 1, by omega⟩
    cases l with
    | nil =>
      refine ⟨fun fuel2 hle => ?_, by simp [findContainersItemsF]⟩
      obtain ⟨g, rfl⟩ : ∃ g, fuel2 = g + 1 := ⟨fuel2 - 1, by omega⟩
      simp [findContainersItemsF]
    | cons item rest =>
      have hfn : f < n := by omega
      cases item with
      | map m =>
        have hem : lsize (YVal.map m :: rest) = 1 + esize m + lsize rest := rfl
        have hIHm := (ih f hfn).1 images m f (le_refl f) (by omega)
        have hIHr := (ih f hfn).2.2 images rest f (le_refl f) (by omega)
        constructor
        · intro fuel2 hle
          obtain ⟨g, rfl⟩ : ∃ g, fuel2 = g + 1 := ⟨fuel2 - 1, by omega⟩
          simp only [findContainersItemsF]
          rw [hIHm.1 g (by omega), hIHr.1 g (by omega)]
        · simp only [findContainersItemsF]
          cases hm2 : findAndReplaceTagF images f m with
          | fuelOut => exact absurd hm2 hIHm.2
          | crash msg => simp [hm2]
          | err msg mm => simp [hm2]
          | ok mm =>
            cases hr2 : findContainersItemsF images f rest with
            | fuelOut => exact absurd hr2 hIHr.2
            | crash msg => simp [hm2, hr2]
            | err msg rr => simp [hm2, hr2]
            | ok rr => simp [hm2, hr2]
      | str s =>
        have hem : lsize (YVal.str s :: rest) = 1 + lsize rest := rfl
        have hIHr := (ih f hfn).2.2 images rest f (le_refl f) (by omega)
        constructor
        · intro fuel2 hle
          obtain ⟨g, rfl⟩ : ∃ g, fuel2 = g + 1 := ⟨fuel2 - 1, by omega⟩
          simp only [findContainersItemsF]
          rw [hIHr.1 g (by omega)]
        · simp only [findContainersItemsF]
          cases hr2 : findContainersItemsF images f rest with
          | fuelOut => exact absurd hr2 hIHr.2
          | crash msg => simp [hr2]
          | err msg rr => simp [hr2]
          | ok rr => simp [hr2]
      | num nv =>
        have hem : lsize (YVal.num nv :: rest) = 1 + lsize rest := rfl
        have hIHr := (ih f hfn).2.2 images rest f (le_refl f) (by omega)
        constructor
        · intro fuel2 hle
          obtain ⟨g, rfl⟩ : ∃ g, fuel2 = g + 1 := ⟨fuel2 - 1, by omega⟩
          simp only [findContainersItemsF]
          rw [hIHr.1 g (by omega)]
        · simp only [findContainersItemsF]
          cases hr2 : findContainersItemsF images f rest with
          | fuelOut => exact absurd hr2 hIHr.2
          | crash msg => simp [hr2]
          | err msg rr => simp [hr2]
          | ok rr => simp [hr2]
      | boolV bv =>
        have hem : lsize (YVal.boolV bv :: rest) = 1 + lsize rest := rfl
        have hIHr := (ih f hfn).2.2 images rest f (le_refl f) (by omega)
        constructor
        · intro fuel2 hle
          obtain ⟨g, rfl⟩ : ∃ g, fuel2 = g + 1 := ⟨fuel2 - 1, by omega⟩
          simp only [findContainersItemsF]
          rw [hIHr.1 g (by omega)]
        · simp only [findContainersItemsF]
          cases hr2 : findContainersItemsF images f rest with
          | fuelOut => exact absurd hr2 hIHr.2
          | crash msg => simp [hr2]
          | err msg rr => simp [hr2]
          | ok rr => simp [hr2]
      | nullV =>
        have hem : lsize (YVal.nullV :: rest) = 1 + lsize rest := rfl
        have hIHr := (ih f hfn).2.2 images rest f (le_refl f) (by omega)
        constructor
        · intro fuel2 hle
          obtain ⟨g, rfl⟩ : ∃ g, fuel2 = g + 1 := ⟨fuel2 - 1, by omega⟩
          simp only [findContainersItemsF]
          rw [hIHr.1 g (by omega)]
        · simp only [findContainersItemsF]
          cases hr2 : findContainersItemsF images f rest with
          | fuelOut => exact absurd hr2 hIHr.2
          | crash msg => simp [hr2]
          | err msg rr => simp [hr2]
          | ok rr => simp [hr2]
      | seq ss =>
        have hem : lsize (YVal.seq ss :: rest) = 1 + lsize ss + lsize rest := rfl
        have hIHr := (ih f hfn).2.2 images rest f (le_refl f) (by omega)
        constructor
        · intro fuel2 hle
          obtain ⟨g, rfl⟩ : ∃ g, fuel2 = g + 1 := ⟨fuel2 - 1, by omega⟩
          simp only [findContainersItemsF]
          rw [hIHr.1 g (by omega)]
        · simp only [findContainersItemsF]
          cases hr2 : findContainersItemsF images f rest with
          | fuelOut => exact absurd hr2 hIHr.2
          | crash msg => simp [hr2]
          | err msg rr => simp [hr2]
          | ok rr => simp [hr2]

-- The wrapper's fuel bound is adequate: above it the traversal's value no
-- longer depends on the fuel, and the fuelOut artifact never surfaces.
theorem findAndReplaceTag_fuel_adequate (images : ImageMap) (obj : Obj) :
    (∀ fuel, 2 * esize obj + 2 ≤ fuel →
      findAndReplaceTagF images fuel obj = findAndReplaceTag images obj) ∧
    findAndReplaceTag images obj ≠ .fuelOut := by
  have h := (traversal_fuel_stable (2 * esize obj + 2)).1 images obj (2 * esize obj + 2)
    (le_refl _) (le_refl _)
  exact ⟨fun fuel hf => h.1 fuel hf, h.2⟩

-- The pool model can run to completion: a concrete schedule for seven
-- queued commands with parallelism three that sends and finishes every
-- command, closes the channel and returns from the wait, ending with all
-- seven commands done.
theorem pool_full_run_exists :
    ∃ s, PoolReachable 3 ["c1", "c2", "c3", "c4", "c5", "c6", "c7"] s ∧
      s.waitReturned = true ∧ s.done.length = 7 := by
  refine ⟨⟨[], [], ["c7", "c6", "c5", "c4", "c3", "c2", "c1"], true, true⟩, ?_, rfl, rfl⟩
  refine .head (.send "c1" ["c2", "c3", "c4", "c5", "c6", "c7"] [] [] (by decide)) ?_
  refine .head (.finish "c1" ["c2", "c3", "c4", "c5", "c6", "c7"] [] [] [] false) ?_
  refine .head (.send "c2" ["c3", "c4", "c5", "c6", "c7"] [] ["c1"] (by decide)) ?_
  refine .head (.finish "c2" ["c3", "c4", "c5", "c6", "c7"] [] [] ["c1"] false) ?_
  refine .head (.send "c3" ["c4", "c5", "c6", "c7"] [] ["c2", "c1"] (by decide)) ?_
  refine .head (.finish "c3" ["c4", "c5", "c6", "c7"] [] [] ["c2", "c1"] false) ?_
  refine .head (.send "c4" ["c5", "c6", "c7"] [] ["c3", "c2", "c1"] (by decide)) ?_
  refine .head (.finish "c4" ["c5", "c6", "c7"] [] [] ["c3", "c2", "c1"] false) ?_
  refine .head (.send "c5" ["c6", "c7"] [] ["c4", "c3", "c2", "c1"] (by decide)) ?_
  refine .head (.finish "c5" ["c6", "c7"] [] [] ["c4", "c3", "c2", "c1"] false) ?_
  refine .head (.send "c6" ["c7"] [] ["c5", "c4", "c3", "c2", "c1"] (by decide)) ?_
  refine .head (.finish "c6" ["c7"] [] [] ["c5", "c4", "c3", "c2", "c1"] false) ?_
  refine .head (.send "c7" [] [] ["c6", "c5", "c4", "c3", "c2", "c1"] (by decide)) ?_
  refine .head (.finish "c7" [] [] [] ["c6", "c5", "c4", "c3", "c2", "c1"] false) ?_
  refine .head (.closeChan [] ["c7", "c6", "c5", "c4", "c3", "c2", "c1"]) ?_
  exact .head (.waitDone ["c7", "c6", "c5", "c4", "c3", "c2", "c1"]) .refl
